import Mathlib

/-!
Verification development for the pdf-to-json pipeline's core:
the section-boundary detection / multi-batch merge algorithm
(`src/agents/section_detector.py`) and the confidence-gated validation
gate (`src/agents/validator.py`, `src/tools/validation.py`,
`src/agents/section_extractor.py`).

Modelling conventions:
* page numbers are `ℤ` (Python ints), confidences are `ℚ`
  (Python floats; all constants involved are exactly representable and
  the claims are about the comparison/averaging logic);
* Python dicts parsed from model replies are modelled by the structures
  below; a raised exception is modelled by `Option`/`Except` `none`/`error`
  propagation (the top of `detect_sections` catches every exception and
  returns `None`);
* file-system side effects (`StorageManager`) and logging are dropped;
  the returned values they would persist are what the theorems speak about.
-/

/-- A section candidate dict as produced by one batch-detection call and
consumed by `_detect_batch_sections` / `_merge_batch_sections`
(`section_detector.py`).  `confidence` is `none` when the reply's dict
lacks the key (the merge step then uses the default `0.8`). -/
structure SectionDict where
  section_type : String
  section_name : String
  start_page : ℤ
  end_page : ℤ
  confidence : Option ℚ
deriving Repr, DecidableEq

/-- Insert into a list sorted by `start_page`, before the first element
with a strictly larger key; later-inserted elements with an equal key end
up after the existing ones. -/
def insortByStart (x : SectionDict) : List SectionDict → List SectionDict
  | [] => [x]
  | h :: t => if h.start_page < x.start_page then h :: insortByStart x t else x :: h :: t

/-- Python's stable `sorted(sections, key=lambda s: s['start_page'])`. -/
def pySortByStart : List SectionDict → List SectionDict
  | [] => []
  | x :: xs => insortByStart x (pySortByStart xs)

/-- Merge condition of `_merge_batch_sections` (section_detector.py:271-273):
same `section_name`, same `section_type`, and
`current.end_page >= next.start_page - 1`. -/
def shouldMerge (cur nxt : SectionDict) : Bool :=
  cur.section_name == nxt.section_name &&
  cur.section_type == nxt.section_type &&
  decide (nxt.start_page - 1 ≤ cur.end_page)

/-- The fused accumulator of `_merge_batch_sections` (lines 280-288):
`end_page` becomes the max, `confidence` the average of the two
(each defaulting to `0.8` when absent). -/
def mergeTwo (cur nxt : SectionDict) : SectionDict :=
  { cur with
      end_page := max cur.end_page nxt.end_page,
      confidence := some ((cur.confidence.getD (4/5) + nxt.confidence.getD (4/5)) / 2) }

/-- The single-accumulator walk of `_merge_batch_sections` (lines 265-295)
over the tail of the sorted candidate list. -/
def mergeWalk (cur : SectionDict) : List SectionDict → List SectionDict
  | [] => [cur]
  | nxt :: rest =>
      if shouldMerge cur nxt then mergeWalk (mergeTwo cur nxt) rest
      else cur :: mergeWalk nxt rest

/-- `_merge_batch_sections` (section_detector.py:237-302): concatenate all
batches' candidate lists, return `None` when empty, sort by `start_page`,
and run the merge walk.  (No gap/overlap repair happens here.) -/
def mergeBatchSections (batchSections : List (List SectionDict)) : Option (List SectionDict) :=
  let allSections := batchSections.foldl (· ++ ·) []
  match pySortByStart allSections with
  | [] => none
  | c :: rest => some (mergeWalk c rest)

/-- The clamp applied to each parsed candidate in `_detect_batch_sections`
(lines 228-234): raise `start_page` to the batch start if below it, lower
`end_page` to the batch end if above it. -/
def clampSection (batchStart batchEnd : ℤ) (s : SectionDict) : SectionDict :=
  let s := if s.start_page < batchStart then { s with start_page := batchStart } else s
  if s.end_page > batchEnd then { s with end_page := batchEnd } else s

/-- `MAX_IMAGES_PER_CALL` (section_detector.py:21). -/
def MAX_IMAGES_PER_CALL : ℕ := 20

/-- Number of batches `(total_pages + 19) // 20` (section_detector.py:155). -/
def numBatches (totalPages : ℕ) : ℕ :=
  (totalPages + MAX_IMAGES_PER_CALL - 1) / MAX_IMAGES_PER_CALL

/-- First page of batch `i`: `i * 20 + 1` (section_detector.py:165,169). -/
def batchStartPage (i : ℕ) : ℤ := (i : ℤ) * MAX_IMAGES_PER_CALL + 1

/-- Last page of batch `i`: `min ((i+1) * 20) total` (section_detector.py:166,170). -/
def batchEndPage (totalPages : ℕ) (i : ℕ) : ℤ :=
  min (((i : ℤ) + 1) * MAX_IMAGES_PER_CALL) (totalPages : ℤ)

/-- `_detect_multi_batch` followed by `_merge_batch_sections`, starting from
the candidate list each batch's model call parsed to (`cands i` is batch
`i`'s parsed reply): clamp every candidate to its batch's page range, then
merge.  This is the whole of `detect_sections`' live data path after JSON
parsing (the `total_pages <= 20` single-batch branch is commented out in
the source, so every document takes this path). -/
def detectSectionsFromCandidates (totalPages : ℕ) (cands : ℕ → List SectionDict) :
    Option (List SectionDict) :=
  mergeBatchSections <|
    (List.range (numBatches totalPages)).map fun i =>
      (cands i).map (clampSection (batchStartPage i) (batchEndPage totalPages i))

/-- Head of `_validate_sections` (section_detector.py:425-429): force the
first section of the sorted list to start at page 1. -/
def fixFirstStart : List SectionDict → List SectionDict
  | [] => []
  | h :: t => (if h.start_page ≠ 1 then { h with start_page := 1 } else h) :: t

/-- `_validate_sections` (lines 432-437): force the last section to end at
`totalPages`. -/
def fixLastEnd (totalPages : ℤ) : List SectionDict → List SectionDict
  | [] => []
  | [a] => [if a.end_page ≠ totalPages then { a with end_page := totalPages } else a]
  | a :: b :: t => a :: fixLastEnd totalPages (b :: t)

/-- One iteration of the gap/overlap loop of `_validate_sections`
(lines 440-459): extend `current.end_page` over a gap, then shrink it over
an overlap; only the earlier section of the pair is modified. -/
def fixPair (a b : SectionDict) : SectionDict :=
  let a1 := if a.end_page < b.start_page - 1 then { a with end_page := b.start_page - 1 } else a
  if a1.end_page ≥ b.start_page then { a1 with end_page := b.start_page - 1 } else a1

/-- The gap/overlap loop over all adjacent pairs.  Python mutates
`sections[i]['end_page']` in place; iteration `i` reads `sections[i]`
(not yet modified) and `sections[i+1]['start_page']` (never modified by the
loop), which is exactly this recursion. -/
def fixGapsOverlaps : List SectionDict → List SectionDict
  | [] => []
  | [a] => [a]
  | a :: b :: t => fixPair a b :: fixGapsOverlaps (b :: t)

/-- `_validate_sections` (section_detector.py:413-461): `None` on an empty
list, otherwise sort by `start_page`, force the first start to 1 and the
last end to `totalPages`, then run the gap/overlap repair loop. -/
def validateSections (sections : List SectionDict) (totalPages : ℤ) :
    Option (List SectionDict) :=
  if sections.isEmpty then none
  else some (fixGapsOverlaps (fixLastEnd totalPages (fixFirstStart (pySortByStart sections))))

/-- Adjacent pairs all satisfy `r`. -/
def pairwiseAdj (r : SectionDict → SectionDict → Bool) : List SectionDict → Bool
  | [] => true
  | [_] => true
  | a :: b :: t => r a b && pairwiseAdj r (b :: t)

/-- The Section invariants of the spec (§3): sorted by `start_page`, first
starts at page 1, last ends at `totalPages`, and each earlier section's
`end_page` is exactly the later's `start_page - 1`. -/
def sectionInvariants (totalPages : ℤ) (l : List SectionDict) : Bool :=
  match l with
  | [] => false
  | h :: _ =>
      pairwiseAdj (fun a b => decide (a.start_page ≤ b.start_page)) l &&
      decide (h.start_page = 1) &&
      decide ((l.getLast?.map SectionDict.end_page) = some totalPages) &&
      pairwiseAdj (fun a b => decide (a.end_page = b.start_page - 1)) l

/-! ## Validation gate (`src/agents/validator.py`, `src/tools/validation.py`) -/

/-- `CONFIDENCE_THRESHOLD` (config/settings.py, default `0.85`). -/
def CONFIDENCE_THRESHOLD : ℚ := 85/100

/-- `LOW_CONFIDENCE_THRESHOLD` (config/settings.py, default `0.70`). -/
def LOW_CONFIDENCE_THRESHOLD : ℚ := 70/100

/-- The `_metadata` dict of an extracted section, as far as the validator
reads it: its `confidence` entry, `none` when the key is absent. -/
structure SectionMeta where
  confidence : Option ℚ
deriving Repr, DecidableEq

/-- A section JSON as consumed by `validate_and_combine`: `metadata` is the
`_metadata` entry, `none` when the key is absent (the extracted payload
under `data` plays no role in the validator's logic). -/
structure SectionJson where
  metadata : Option SectionMeta
deriving Repr, DecidableEq

/-- The `document_metadata` dict passed into `validate_and_combine`, as far
as `validate_document_structure` inspects it: presence of the
`total_pages` and `processing_timestamp` keys. -/
structure InputMetadata where
  total_pages : Option ℤ
  processing_timestamp : Option String
deriving Repr, DecidableEq

/-- The combined document dict built by `validate_and_combine`
(validator.py:37-46).  The three top-level keys `document_id`, `metadata`
and `sections` that `validate_document_structure` requires are always
present by construction, so they are structure fields here. -/
structure DocumentJson where
  document_id : String
  input_metadata : InputMetadata
  confidence_score : ℚ
  section_count : ℕ
  sections : List SectionJson
  validation_status : String
  validation_errors : Option (List String)
deriving Repr, DecidableEq

/-- The per-section `_metadata`-presence errors of
`validate_document_structure` (validation.py:214-219), accumulated by
`for i, section in enumerate(sections)` starting at index `i`. -/
def sectionMetaErrorsFrom (i : ℕ) : List SectionJson → List String
  | [] => []
  | s :: t =>
      (if s.metadata.isNone then ["Section " ++ toString i ++ " missing _metadata field"]
       else []) ++ sectionMetaErrorsFrom (i + 1) t

/-- The per-section `_metadata`-presence errors, from index 0. -/
def sectionMetaErrors (sections : List SectionJson) : List String :=
  sectionMetaErrorsFrom 0 sections

/-- The metadata-field errors of `validate_document_structure`
(validation.py:221-236). -/
def metadataFieldErrors (m : InputMetadata) : List String :=
  (if m.total_pages.isNone then ["Missing metadata field: total_pages"] else []) ++
  (if m.processing_timestamp.isNone then ["Missing metadata field: processing_timestamp"] else [])

/-- `validate_document_structure` (validation.py:187-240) on a document
built by `validate_and_combine`: the three top-level required keys are
present by construction and `sections` is a list, so the reachable errors
are the empty-section-list error, the per-section `_metadata` errors, and
the missing-metadata-field errors, in source order. -/
def validate_document_structure (doc : DocumentJson) : Bool × List String :=
  let errors :=
    (if doc.sections.length = 0 then ["Document has no sections"]
     else sectionMetaErrors doc.sections) ++
    metadataFieldErrors doc.input_metadata
  (decide (errors = []), errors)

/-- The confidence `validate_and_combine` reads off one section
(validator.py:30-33): `s.get('_metadata', {}).get('confidence', 0.5)`. -/
def sectionConfidence (s : SectionJson) : ℚ :=
  match s.metadata with
  | none => 1/2
  | some m => m.confidence.getD (1/2)

/-- The aggregate confidence — the arithmetic mean of the per-section
confidences, `0.0` for an empty list:
`sum(confidences) / len(confidences) if confidences else 0.0`
(validator.py:34). -/
def aggregateConfidence (confidences : List ℚ) : ℚ :=
  if confidences.isEmpty then 0 else confidences.sum / (confidences.length : ℚ)

/-- `_determine_review_reason` (validator.py:81-101).  The Python code
interpolates `avg` with `f"{avg:.2f}"`; the numeric rendering is modelled
by `toString` (no claim depends on the digits). -/
def determineReviewReason (avg : ℚ) (isValid : Bool) (confidences : List ℚ) : String :=
  let reasons : List String :=
    (if avg < LOW_CONFIDENCE_THRESHOLD then ["Very low confidence (" ++ toString avg ++ ")"]
     else if avg < CONFIDENCE_THRESHOLD then ["Low confidence (" ++ toString avg ++ ")"]
     else []) ++
    (if isValid then [] else ["Structure validation failed"]) ++
    (let lowSections := (confidences.filter (fun c => c < LOW_CONFIDENCE_THRESHOLD)).length
     if lowSections > 0 then [toString lowSections ++ " section(s) with very low confidence"]
     else [])
  if reasons = [] then "Unknown issue" else String.intercalate "; " reasons

/-- Result of `validate_and_combine`: the returned document dict, whether
it was saved to final output (`save_final_json`) as opposed to queued for
human validation (`queue_for_validation`), and the review reason passed to
the queue. -/
structure ValidationOutcome where
  document : DocumentJson
  savedToFinal : Bool
  reviewReason : Option String
deriving Repr, DecidableEq

/-- `validate_and_combine` (validator.py:21-79): average the per-section
confidences (0.0 for an empty list), build the combined document, check
its structure, and either save to final output or queue for review. -/
def validate_and_combine (section_jsons : List SectionJson) (document_metadata : InputMetadata)
    (document_id : String) : ValidationOutcome :=
  let confidences := section_jsons.map sectionConfidence
  let avg_confidence : ℚ := aggregateConfidence confidences
  let doc0 : DocumentJson :=
    { document_id := document_id,
      input_metadata := document_metadata,
      confidence_score := avg_confidence,
      section_count := section_jsons.length,
      sections := section_jsons,
      validation_status := "pending",
      validation_errors := none }
  let v := validate_document_structure doc0
  let doc := if v.1 then doc0 else { doc0 with validation_errors := some v.2 }
  let needs_review :=
    decide (avg_confidence < CONFIDENCE_THRESHOLD) || !v.1 ||
    confidences.any (fun c => decide (c < LOW_CONFIDENCE_THRESHOLD))
  if needs_review then
    { document := doc, savedToFinal := false,
      reviewReason := some (determineReviewReason avg_confidence v.1 confidences) }
  else
    { document := doc, savedToFinal := true, reviewReason := none }

/-- The spec's three dispositions (§4.2), read off the code's paths:
`approved` exactly when the document is saved to final output; within the
review queue, the structural-failure path is the spec's `rejected` and the
confidence-only path its `in_review`. -/
inductive Disposition where
  | approved
  | inReview
  | rejected
deriving Repr, DecidableEq

/-- Disposition of a document under `validate_and_combine`. -/
def dispositionOf (section_jsons : List SectionJson) (document_metadata : InputMetadata)
    (document_id : String) : Disposition :=
  let o := validate_and_combine section_jsons document_metadata document_id
  if o.savedToFinal then .approved
  else if (validate_document_structure o.document).1 then .inReview
  else .rejected

/-! ## JSON values (`section_extractor.py` helpers and model-reply parsing) -/

mutual
/-- A Python/JSON value as handled by the extraction helpers: `null` is
Python `None`; arrays and objects are the nested dict/list structures. -/
inductive JVal where
  | null
  | bool (b : Bool)
  | num (q : ℚ)
  | str (s : String)
  | arr (elems : JArr)
  | obj (fields : JObj)

/-- A JSON array (list of values). -/
inductive JArr where
  | nil
  | cons (hd : JVal) (tl : JArr)

/-- A JSON object (ordered key/value fields, as a Python dict). -/
inductive JObj where
  | nil
  | cons (key : String) (val : JVal) (tl : JObj)
end

/-- Python `str` whitespace (`str.strip`, regex `\s`). -/
def isPyWS (c : Char) : Bool :=
  c = ' ' || c = '\t' || c = '\n' || c = '\r' || c = '\x0b' || c = '\x0c'

/-- Python `str.strip()` on a character list. -/
def pyStripChars (cs : List Char) : List Char :=
  ((cs.dropWhile isPyWS).reverse.dropWhile isPyWS).reverse

/-- Python `str.strip()`. -/
def pyStrip (s : String) : String := String.mk (pyStripChars s.toList)

/-- Number of elements of a JSON array. -/
def JArr.length : JArr → ℕ
  | .nil => 0
  | .cons _ t => t.length + 1

/-- Number of fields of a JSON object (`len(data)`). -/
def JObj.length : JObj → ℕ
  | .nil => 0
  | .cons _ _ t => t.length + 1

/-- The elements of a JSON array as a Lean list. -/
def JArr.toList : JArr → List JVal
  | .nil => []
  | .cons v t => v :: t.toList

mutual
/-- Whether one dict value counts as empty in the loop of
`check_dict_empty` (section_extractor.py:81-92): `None`, `""`, a
whitespace-only string, an empty list, or a dict that is itself mostly
empty.  Numbers and booleans never count. -/
def fieldEmpty : JVal → Bool
  | .null => true
  | .bool _ => false
  | .num _ => false
  | .str s => s == "" || (pyStripChars s.toList).isEmpty
  | .arr a => match a with | .nil => true | .cons _ _ => false
  | .obj o => if o.length = 0 then true else decide (2 * emptyCount o > o.length)

/-- The `empty_count` accumulated over a dict's fields
(section_extractor.py:78-92). -/
def emptyCount : JObj → ℕ
  | .nil => 0
  | .cons _ v t => (if fieldEmpty v then 1 else 0) + emptyCount t
end

/-- `check_dict_empty` (section_extractor.py:65-95): an empty dict is
mostly empty; otherwise mostly empty iff `empty_count > total_count * 0.5`
(for integers, `2 * empty_count > total_count`). -/
def check_dict_empty (o : JObj) : Bool :=
  if o.length = 0 then true else decide (2 * emptyCount o > o.length)

/-- Whether one array item counts towards `empty_items` in
`calculate_confidence_score` (section_extractor.py:129-133): only dict
items that are mostly empty count; non-dict items never do. -/
def emptyDictItemFlag : JVal → ℕ
  | .obj o => if check_dict_empty o then 1 else 0
  | _ => 0

/-- `empty_items` of the array branch of `calculate_confidence_score`
(section_extractor.py:128-133). -/
def countEmptyDictItems : JArr → ℕ
  | .nil => 0
  | .cons v t => emptyDictItemFlag v + countEmptyDictItems t

/-- The final clamp `max(0.0, min(1.0, confidence))`
(section_extractor.py:153). -/
def clampConfidence (q : ℚ) : ℚ := max 0 (min 1 q)

/-- `calculate_confidence_score` (section_extractor.py:98-159): start at
1.0; `None` data scores 0.0 outright; an empty array or empty object costs
0.3; a non-empty array costs `0.2 * (fraction of mostly-empty dict
items)`; a non-empty but mostly-empty object costs 0.2; other values
(strings, numbers, booleans) fall through at 1.0; clamp to [0, 1].
The `section_type` argument is unused by the source body. -/
def calculate_confidence_score (extracted_data : JVal) (_section_type : String) :
    ℚ × List String :=
  match extracted_data with
  | .null => (0, ["No data extracted"])
  | .arr a =>
      if a.length = 0 then (clampConfidence (1 - 3/10), ["Empty array"])
      else
        let e := countEmptyDictItems a
        if e > 0 then
          (clampConfidence (1 - ((e : ℚ) / (a.length : ℚ)) * (2/10)),
           [toString e ++ "/" ++ toString a.length ++ " items are empty or incomplete"])
        else (clampConfidence 1, [])
  | .obj o =>
      if o.length = 0 then (clampConfidence (1 - 3/10), ["Empty object"])
      else if check_dict_empty o then (clampConfidence (1 - 2/10), ["Some fields are empty"])
      else (clampConfidence 1, [])
  | _ => (clampConfidence 1, [])

/-- A leaf value (non-container): Python `None`, bool, number or string. -/
def JVal.isLeaf : JVal → Prop
  | .null => True
  | .bool _ => True
  | .num _ => True
  | .str _ => True
  | .arr _ => False
  | .obj _ => False

mutual
/-- `EmptierVal v w`: `v` is the record `w` with the same shape in which
some leaf fields have additionally been emptied — a leaf may be replaced
by `None`, a string leaf by an empty/whitespace-only string; containers
are compared pointwise (same array length, same keys in the same order).
This is the claim's "more empty/absent leaf fields than the other,
otherwise identical shape". -/
inductive EmptierVal : JVal → JVal → Prop
  | eq (v : JVal) : EmptierVal v v
  | toNull (w : JVal) : w.isLeaf → EmptierVal .null w
  | emptyStr (s t : String) : (pyStripChars s.toList).isEmpty = true →
      EmptierVal (.str s) (.str t)
  | arr {a b : JArr} : EmptierArr a b → EmptierVal (.arr a) (.arr b)
  | obj {a b : JObj} : EmptierObj a b → EmptierVal (.obj a) (.obj b)

/-- Pointwise `EmptierVal` on arrays of the same length. -/
inductive EmptierArr : JArr → JArr → Prop
  | nil : EmptierArr .nil .nil
  | cons {v w : JVal} {a b : JArr} :
      EmptierVal v w → EmptierArr a b → EmptierArr (.cons v a) (.cons w b)

/-- Pointwise `EmptierVal` on objects with the same keys in order. -/
inductive EmptierObj : JObj → JObj → Prop
  | nil : EmptierObj .nil .nil
  | cons (k : String) {v w : JVal} {a b : JObj} :
      EmptierVal v w → EmptierObj a b → EmptierObj (.cons k v a) (.cons k w b)
end

/-! ## Model-reply parsing

`json.loads` (Python standard library) is modelled by a strict
recursive-descent JSON reader over the character list: it accepts the JSON
grammar (null/true/false, numbers without exponents, strings with the
common escapes, arrays, objects) and — like `json.loads` — rejects
trailing commas, and rejects any leftover text after the value.  Recursion
is fuel-indexed; `json_loads` supplies fuel larger than any chain of
nested calls the input can produce. -/

/-- JSON whitespace. -/
def isJsonWS (c : Char) : Bool := c = ' ' || c = '\t' || c = '\n' || c = '\r'

/-- The common JSON string escapes; escapes outside this list are not
needed by any input in this development and are rejected. -/
def escapeChar (c : Char) : Option Char :=
  if c = 'n' then some '\n'
  else if c = 't' then some '\t'
  else if c = 'r' then some '\r'
  else if c = '"' ∨ c = '\\' ∨ c = '/' then some c
  else none

/-- Read the remainder of a JSON string literal proper. -/
def parseStringChars : List Char → Option (List Char × List Char)
  | [] => none
  | '"' :: rest => some ([], rest)
  | '\\' :: esc :: rest =>
      match escapeChar esc with
      | none => none
      | some c => (parseStringChars rest).map fun p => (c :: p.1, p.2)
  | c :: rest => (parseStringChars rest).map fun p => (c :: p.1, p.2)

/-- Digits to a natural number. -/
def digitsToNat (ds : List Char) : ℕ :=
  ds.foldl (fun acc c => acc * 10 + (c.toNat - '0'.toNat)) 0

/-- Read a JSON number (optional minus, integer part, optional fraction). -/
def parseNumber (cs : List Char) : Option (ℚ × List Char) :=
  let signAndRest : Bool × List Char :=
    match cs with
    | '-' :: t => (true, t)
    | _ => (false, cs)
  let intDigits := signAndRest.2.takeWhile Char.isDigit
  let rest1 := signAndRest.2.dropWhile Char.isDigit
  if intDigits.isEmpty then none
  else
    let intPart : ℚ := (digitsToNat intDigits : ℚ)
    let valAndRest : Option (ℚ × List Char) :=
      match rest1 with
      | '.' :: r2 =>
          let fracDigits := r2.takeWhile Char.isDigit
          if fracDigits.isEmpty then none
          else some (intPart + (digitsToNat fracDigits : ℚ) / ((10 : ℚ) ^ fracDigits.length),
                     r2.dropWhile Char.isDigit)
      | _ => some (intPart, rest1)
    valAndRest.map fun p => (if signAndRest.1 then -p.1 else p.1, p.2)

mutual
/-- Read one JSON value (fuel-indexed). -/
def parseJVal : ℕ → List Char → Option (JVal × List Char)
  | 0, _ => none
  | fuel + 1, cs =>
      match cs.dropWhile isJsonWS with
      | 'n' :: 'u' :: 'l' :: 'l' :: rest => some (.null, rest)
      | 't' :: 'r' :: 'u' :: 'e' :: rest => some (.bool true, rest)
      | 'f' :: 'a' :: 'l' :: 's' :: 'e' :: rest => some (.bool false, rest)
      | '"' :: rest => (parseStringChars rest).map fun p => (.str (String.mk p.1), p.2)
      | '[' :: rest =>
          (match rest.dropWhile isJsonWS with
           | ']' :: r2 => some (.arr .nil, r2)
           | r1 => (parseJArrElems fuel r1).map fun p => (.arr p.1, p.2))
      | '{' :: rest =>
          (match rest.dropWhile isJsonWS with
           | '}' :: r2 => some (.obj .nil, r2)
           | r1 => (parseJObjFields fuel r1).map fun p => (.obj p.1, p.2))
      | cs' => (parseNumber cs').map fun p => (.num p.1, p.2)

/-- Read the non-empty element list of a JSON array; a comma must be
followed by another value, so `[x,]` is rejected, as by `json.loads`. -/
def parseJArrElems : ℕ → List Char → Option (JArr × List Char)
  | 0, _ => none
  | fuel + 1, cs =>
      (parseJVal fuel cs).bind fun p =>
        match p.2.dropWhile isJsonWS with
        | ',' :: r2 =>
            (parseJArrElems fuel r2).map fun q => (.cons p.1 q.1, q.2)
        | ']' :: r2 => some (.cons p.1 .nil, r2)
        | _ => none

/-- Read the non-empty field list of a JSON object. -/
def parseJObjFields : ℕ → List Char → Option (JObj × List Char)
  | 0, _ => none
  | fuel + 1, cs =>
      match cs.dropWhile isJsonWS with
      | '"' :: r1 =>
          (parseStringChars r1).bind fun pk =>
            match pk.2.dropWhile isJsonWS with
            | ':' :: r3 =>
                (parseJVal fuel r3).bind fun pv =>
                  match pv.2.dropWhile isJsonWS with
                  | ',' :: r5 =>
                      (parseJObjFields fuel r5).map fun q =>
                        (.cons (String.mk pk.1) pv.1 q.1, q.2)
                  | '}' :: r5 => some (.cons (String.mk pk.1) pv.1 .nil, r5)
                  | _ => none
            | _ => none
      | _ => none
end

/-- Model of Python `json.loads`: parse one value, allow surrounding
whitespace, reject any other leftover input. -/
def json_loads (s : String) : Option JVal :=
  let cs := s.toList
  (parseJVal (2 * cs.length + 8) cs).bind fun p =>
    match p.2.dropWhile isJsonWS with
    | [] => some p.1
    | _ => none

/-- The markdown-fence stripping shared by `_parse_detection_response`
(section_detector.py:389-398) and the start of `clean_json_response`
(section_extractor.py:26-36): strip, drop a leading "```json" or "```",
drop a trailing "```", strip again. -/
def stripFencesChars (cs0 : List Char) : List Char :=
  let cs := pyStripChars cs0
  let cs := if List.isPrefixOf "```json".toList cs then cs.drop 7 else cs
  let cs := if List.isPrefixOf "```".toList cs then cs.drop 3 else cs
  let cs := if List.isPrefixOf "```".toList.reverse cs.reverse then cs.take (cs.length - 3) else cs
  pyStripChars cs

/-- `stripFencesChars` on a string. -/
def stripFences (response : String) : String :=
  String.mk (stripFencesChars response.toList)

/-- `_parse_detection_response` (section_detector.py:387-411): strip
fences, `json.loads`, and require a JSON array; a parse failure or a
non-array reply raises (modelled as `none`) — there is no trailing-comma
repair on this path. -/
def parse_detection_response (response : String) : Option (List JVal) :=
  match json_loads (stripFences response) with
  | some (.arr a) => some a.toList
  | _ => none

/-- The trailing-comma fix of `clean_json_response`
(section_extractor.py:39): `re.sub(r",\s*([}\]])", r"\1", ...)` — drop a
comma (and the whitespace after it) that directly precedes a closing
brace or bracket.  Fuel-indexed scan. -/
def fixTrailingCommas : ℕ → List Char → List Char
  | 0, cs => cs
  | _ + 1, [] => []
  | fuel + 1, ',' :: rest =>
      match rest.dropWhile isJsonWS with
      | c :: tail =>
          if c = '}' ∨ c = ']' then fixTrailingCommas fuel (c :: tail)
          else ',' :: fixTrailingCommas fuel rest
      | [] => ',' :: fixTrailingCommas fuel rest
  | fuel + 1, c :: rest => c :: fixTrailingCommas fuel rest

/-- `clean_json_response` (section_extractor.py:24-62), the
extraction-stage cleaner: strip fences, fix trailing commas, then cut the
text down to the span from the first `{`/`[` to the last `}`/`]`. -/
def clean_json_response (response : String) : String :=
  let s := stripFences response
  let cs := fixTrailingCommas (s.toList.length + 1) s.toList
  let cs1 :=
    match cs.findIdx? (fun c => c = '{' ∨ c = '[') with
    | some i => if i > 0 then cs.drop i else cs
    | none => cs
  let cs2 :=
    match cs1.reverse.findIdx? (fun c => c = '}' ∨ c = ']') with
    | some j => cs1.take (cs1.length - j)
    | none => cs1
  String.mk cs2

/-- Last-wins lookup in a parsed JSON object (later duplicate keys shadow
earlier ones, as in a Python dict built by `json.loads`). -/
def jObjGet : JObj → String → Option JVal
  | .nil, _ => none
  | .cons k' v t, k =>
      match jObjGet t k with
      | some r => some r
      | none => if k' = k then some v else none

/-- A JSON number holding a Python int. -/
def JVal.asInt : JVal → Option ℤ
  | .num q => if q.den = 1 then some q.num else none
  | _ => none

/-- A JSON string. -/
def JVal.asStr : JVal → Option String
  | .str s => some s
  | _ => none

/-- A JSON number. -/
def JVal.asNum : JVal → Option ℚ
  | .num q => some q
  | _ => none

/-- Read one candidate dict out of a parsed reply element.  Python accesses
`section['start_page']`, `section['end_page']` (in the clamp loop),
`section['section_name']`, `section['section_type']` and
`section.get('confidence', 0.8)` (in the merge); an element without those
keys (or with non-int pages) raises, which `detect_sections` turns into
`None` — modelled by a `none` here. -/
def toSectionDict (v : JVal) : Option SectionDict :=
  match v with
  | .obj o =>
      (jObjGet o "section_type").bind fun tv =>
      tv.asStr.bind fun ty =>
      (jObjGet o "section_name").bind fun nv =>
      nv.asStr.bind fun name =>
      (jObjGet o "start_page").bind fun sv =>
      sv.asInt.bind fun sp =>
      (jObjGet o "end_page").bind fun ev =>
      ev.asInt.bind fun ep =>
      match jObjGet o "confidence" with
      | some cv => cv.asNum.map fun q => ⟨ty, name, sp, ep, some q⟩
      | none => some ⟨ty, name, sp, ep, none⟩
  | _ => none

/-- `_detect_batch_sections` (section_detector.py:201-235) minus the model
call: parse the reply for the batch covering pages `[batchStart,
batchEnd]` and clamp every candidate to that range. -/
def detect_batch_sections (batchStart batchEnd : ℤ) (reply : String) :
    Option (List SectionDict) :=
  (parse_detection_response reply).bind fun elems =>
    (elems.mapM toSectionDict).map fun secs =>
      secs.map (clampSection batchStart batchEnd)

/-- `detect_sections` / `_detect_multi_batch`
(section_detector.py:83-199): run every batch in order over the reply the
model gives for it, then merge; any exception along the way (bad parse,
bad shape, empty merge) makes `detect_sections` return `None`. -/
def detect_sections (totalPages : ℕ) (reply : ℕ → String) : Option (List SectionDict) :=
  ((List.range (numBatches totalPages)).mapM fun i =>
      detect_batch_sections (batchStartPage i) (batchEndPage totalPages i) (reply i)).bind
    mergeBatchSections

/-- Stage 2 of `process_single_pdf` (pipeline.py:91-94): a `None` from the
detector makes `len(sections)` raise, the pipeline's `except` re-raises,
and no document result is produced — modelled as `Except.error`. -/
def pipelineDetectStage (totalPages : ℕ) (reply : ℕ → String) :
    Except String (List SectionDict) :=
  match detect_sections totalPages reply with
  | none => .error "Section detection failed"
  | some s => .ok s

deriving instance DecidableEq for JVal

/-! Concrete model replies used for evaluation theorems. -/

/-- A clean (unfenced) reply for a single-page document naming two
different sections, both on page 1. -/
def twoNameReply : String :=
  "[\x7b\"section_type\": \"general\", \"section_name\": \"A\", \"start_page\": 1, \"end_page\": 1, \"confidence\": 1\x7d, \x7b\"section_type\": \"general\", \"section_name\": \"B\", \"start_page\": 1, \"end_page\": 1, \"confidence\": 1\x7d]"

/-- A markdown-fenced JSON array reply with a trailing comma. -/
def fencedTrailingCommaReply : String :=
  "```json\n[\x7b\"section_type\": \"safety\", \"section_name\": \"S\", \"start_page\": 1, \"end_page\": 20, \"confidence\": 1\x7d,]\n```"

/-- A clean markdown-fenced reply for the batch covering pages 21-25. -/
def fencedCleanReply : String :=
  "```json\n[\x7b\"section_type\": \"general\", \"section_name\": \"G\", \"start_page\": 21, \"end_page\": 25, \"confidence\": 1\x7d]\n```"

/-- The parsed element of `fencedCleanReply`. -/
def fencedCleanElem : JVal :=
  .obj (.cons "section_type" (.str "general")
    (.cons "section_name" (.str "G")
      (.cons "start_page" (.num 21)
        (.cons "end_page" (.num 25)
          (.cons "confidence" (.num 1) .nil)))))

/-- The value `json.loads` yields for `fencedTrailingCommaReply` once
`clean_json_response` has repaired it. -/
def repairedTrailingCommaElem : JVal :=
  .obj (.cons "section_type" (.str "safety")
    (.cons "section_name" (.str "S")
      (.cons "start_page" (.num 1)
        (.cons "end_page" (.num 20)
          (.cons "confidence" (.num 1) .nil)))))

/-! ## Theorems -/

/-- C1: the claim says `detect_sections` always returns a partition of
`[1, N]` (sorted, first start 1, last end N, no gaps/overlaps) for every
combination of per-batch candidate lists.  The code violates this — and
its own docstring, which promises "3. Validate and fix gaps/overlaps" —
because `_merge_batch_sections` never runs `_validate_sections` on the
live multi-batch path: a 2-page document whose single batch yields one
candidate on pages [2, 2] is returned as-is, leaving page 1 uncovered and
the first section starting at 2. -/
theorem C1_coverage_fails_without_repair :
    detectSectionsFromCandidates 2 (fun _ => [⟨"general", "X", 2, 2, none⟩])
      = some [⟨"general", "X", 2, 2, none⟩] ∧
    sectionInvariants 2 [⟨"general", "X", 2, 2, none⟩] = false := by
  exact ⟨by decide, by decide⟩

/-- C2: in the merge walk, the next candidate is fused into the
accumulator exactly when `section_name` and `section_type` match and
`next.start_page ≤ current.end_page + 1`; fusion takes the max `end_page`
and the arithmetic average of the two confidences; and two same-name,
same-type candidates more than one page apart are not merged by
`_merge_batch_sections`. -/
theorem C2_merge_adjacency_gate :
    (∀ cur nxt : SectionDict, cur.section_name = nxt.section_name →
        cur.section_type = nxt.section_type → nxt.start_page ≤ cur.end_page + 1 →
        mergeWalk cur [nxt]
          = [{ cur with
                end_page := max cur.end_page nxt.end_page,
                confidence :=
                  some ((cur.confidence.getD (4/5) + nxt.confidence.getD (4/5)) / 2) }]) ∧
    (∀ cur nxt : SectionDict,
        ¬(cur.section_name = nxt.section_name ∧ cur.section_type = nxt.section_type ∧
            nxt.start_page ≤ cur.end_page + 1) →
        mergeWalk cur [nxt] = [cur, nxt]) ∧
    (∀ c1 c2 : SectionDict, c1.section_name = c2.section_name →
        c1.section_type = c2.section_type → c1.start_page ≤ c2.start_page →
        c1.end_page + 1 < c2.start_page →
        mergeBatchSections [[c1], [c2]] = some [c1, c2]) := by
  refine ⟨?_, ?_, ?_⟩
  · intro cur nxt hn ht hadj
    have hm : shouldMerge cur nxt = true := by
      simp [shouldMerge, hn, ht]
      omega
    simp [mergeWalk, hm, mergeTwo]
  · intro cur nxt hno
    have hm : shouldMerge cur nxt = false := by
      simp only [shouldMerge, Bool.and_eq_false_iff]
      by_contra hc
      simp only [not_or, Bool.not_eq_false, beq_iff_eq, decide_eq_true_eq] at hc
      obtain ⟨⟨h1, h2⟩, h3⟩ := hc
      exact hno ⟨h1, h2, by omega⟩
    simp [mergeWalk, hm]
  · intro c1 c2 hn ht hle hfar
    have hsort : pySortByStart [c1, c2] = [c1, c2] := by
      simp [pySortByStart, insortByStart, not_lt.mpr hle]
    have hm : shouldMerge c1 c2 = false := by
      simp only [shouldMerge, Bool.and_eq_false_iff]
      right
      simp only [decide_eq_false_iff_not, not_le]
      omega
    simp [mergeBatchSections, hsort, mergeWalk, hm]

/-- Witness for C2 at concrete inputs: adjacent same-name candidates fuse
(max end page, averaged confidence); distant same-name candidates stay two
sections. -/
theorem C2_merge_adjacency_gate_witness :
    mergeWalk ⟨"safety", "S", 1, 3, some 1⟩ [⟨"safety", "S", 4, 6, some 1⟩]
      = [{ (⟨"safety", "S", 1, 3, some 1⟩ : SectionDict) with
            end_page := max 3 6,
            confidence := some (((1 : ℚ) + 1) / 2) }] ∧
    mergeBatchSections [[⟨"safety", "S", 1, 3, some 1⟩], [⟨"safety", "S", 10, 12, some 1⟩]]
      = some [⟨"safety", "S", 1, 3, some 1⟩, ⟨"safety", "S", 10, 12, some 1⟩] :=
  ⟨C2_merge_adjacency_gate.1 _ _ rfl rfl (by norm_num),
   C2_merge_adjacency_gate.2.2 _ _ rfl rfl (by norm_num) (by norm_num)⟩

/-- Inserting below every element of an already-sorted list prepends. -/
theorem insortByStart_of_le (x : SectionDict) (l : List SectionDict)
    (h : ∀ y ∈ l, x.start_page ≤ y.start_page) : insortByStart x l = x :: l := by
  cases l with
  | nil => rfl
  | cons a t =>
      have ha : ¬ a.start_page < x.start_page := not_lt.mpr (h a (List.mem_cons_self a t))
      simp [insortByStart, ha]

/-- In a `start_page`-sorted chain, the head is below every tail element. -/
theorem chainLe_head_all (x : SectionDict) (xs : List SectionDict)
    (h : List.Chain' (fun a b : SectionDict => a.start_page ≤ b.start_page) (x :: xs)) :
    ∀ y ∈ xs, x.start_page ≤ y.start_page := by
  induction xs generalizing x with
  | nil => intro y hy; cases hy
  | cons a t ih =>
      intro y hy
      have hxa : x.start_page ≤ a.start_page := (List.chain'_cons.mp h).1
      rcases List.mem_cons.mp hy with rfl | hy'
      · exact hxa
      · exact le_trans hxa (ih a (List.chain'_cons.mp h).2 y hy')

/-- The stable sort is the identity on a list already sorted by
`start_page`. -/
theorem pySortByStart_of_sorted (l : List SectionDict)
    (h : List.Chain' (fun a b : SectionDict => a.start_page ≤ b.start_page) l) :
    pySortByStart l = l := by
  induction l with
  | nil => rfl
  | cons x xs ih =>
      rw [pySortByStart, ih (List.Chain'.tail h)]
      exact insortByStart_of_le x xs (chainLe_head_all x xs h)

/-- A list whose elements all start at page 1 is sorted by `start_page`. -/
theorem chainLe_of_const_start (l : List SectionDict) (h : ∀ c ∈ l, c.start_page = 1) :
    List.Chain' (fun a b : SectionDict => a.start_page ≤ b.start_page) l := by
  induction l with
  | nil => exact List.chain'_nil
  | cons a t ih =>
      cases t with
      | nil => exact List.chain'_singleton a
      | cons b t' =>
          refine List.Chain'.cons ?_ (ih fun c hc => h c (List.mem_cons_of_mem _ hc))
          rw [h a (List.mem_cons_self _ _), h b (List.mem_cons_of_mem _ (List.mem_cons_self _ _))]

/-- The merge walk collapses a run of candidates that all have the same
name and type and all span `[1, 1]` into a single `[1, 1]` section. -/
theorem mergeWalk_uniform (t n : String) :
    ∀ (rest : List SectionDict) (co : Option ℚ),
      (∀ c ∈ rest, c.section_type = t ∧ c.section_name = n ∧
        c.start_page = 1 ∧ c.end_page = 1) →
      ∃ q, mergeWalk ⟨t, n, 1, 1, co⟩ rest = [⟨t, n, 1, 1, q⟩] := by
  intro rest
  induction rest with
  | nil => exact fun co _ => ⟨co, rfl⟩
  | cons nxt rest' ih =>
      intro co hall
      obtain ⟨h1, h2, h3, h4⟩ := hall nxt (List.mem_cons_self nxt rest')
      have hm : shouldMerge ⟨t, n, 1, 1, co⟩ nxt = true := by
        simp [shouldMerge, h1, h2, h3]
      have hmt : mergeTwo ⟨t, n, 1, 1, co⟩ nxt
          = ⟨t, n, 1, 1, some ((co.getD (4/5) + nxt.confidence.getD (4/5)) / 2)⟩ := by
        simp [mergeTwo, h4]
      rw [mergeWalk, if_pos hm, hmt]
      exact ih _ fun c hc => hall c (List.mem_cons_of_mem _ hc)

set_option maxRecDepth 10000 in
/-- C7: the claim says every single-page document yields exactly one
section `[1, 1]` for every model reply.  False: a reply naming two
different sections on page 1 comes back as two sections. -/
theorem C7_single_page_not_always_one_section :
    detect_sections 1 (fun _ => twoNameReply)
      = some [⟨"general", "A", 1, 1, some 1⟩, ⟨"general", "B", 1, 1, some 1⟩] ∧
    ([⟨"general", "A", 1, 1, some 1⟩, ⟨"general", "B", 1, 1, some 1⟩] :
        List SectionDict).length = 2 := by
  exact ⟨by decide, by decide⟩

/-- C7 (amended): a single-page document yields exactly one section
spanning `[1, 1]` whenever the parsed candidate list is non-empty and all
its candidates carry one section name and type with `start_page ≤ 1 ≤
end_page` (the page bounds the batch prompt demands); with two different
names, or an empty reply, the detector returns two sections or `None`
instead. -/
theorem C7_single_page_one_section_amended (cands : List SectionDict) (t n : String)
    (hne : cands ≠ [])
    (hall : ∀ c ∈ cands, c.section_name = n ∧ c.section_type = t ∧
      c.start_page ≤ 1 ∧ 1 ≤ c.end_page) :
    ∃ q, detectSectionsFromCandidates 1 (fun _ => cands) = some [⟨t, n, 1, 1, q⟩] := by
  have hclamp : ∀ c ∈ cands, clampSection (batchStartPage 0) (batchEndPage 1 0) c
      = ⟨c.section_type, c.section_name, 1, 1, c.confidence⟩ := by
    intro c hc
    obtain ⟨_, _, h3, h4⟩ := hall c hc
    have hbs : batchStartPage 0 = 1 := by norm_num [batchStartPage]
    have hbe : batchEndPage 1 0 = 1 := by norm_num [batchEndPage, MAX_IMAGES_PER_CALL]
    rw [hbs, hbe]
    cases c with
    | mk ty' nm' sp' ep' cf' =>
        simp only at h3 h4
        simp only [clampSection]
        split_ifs <;> simp_all <;> omega
  have hmap : cands.map (clampSection (batchStartPage 0) (batchEndPage 1 0))
      = cands.map fun c => ⟨c.section_type, c.section_name, 1, 1, c.confidence⟩ :=
    List.map_congr_left hclamp
  unfold detectSectionsFromCandidates
  have hnb : numBatches 1 = 1 := by decide
  rw [hnb]
  have hr : List.range 1 = [0] := rfl
  rw [hr]
  simp only [List.map_cons, List.map_nil]
  rw [hmap]
  cases cands with
  | nil => exact absurd rfl hne
  | cons c0 rest =>
      obtain ⟨hn0, ht0, _, _⟩ := hall c0 (List.mem_cons_self c0 rest)
      simp only [List.map_cons]
      rw [hn0, ht0]
      have hsort : pySortByStart
          (⟨t, n, 1, 1, c0.confidence⟩ ::
            rest.map fun c => ⟨c.section_type, c.section_name, 1, 1, c.confidence⟩)
          = ⟨t, n, 1, 1, c0.confidence⟩ ::
            rest.map fun c => ⟨c.section_type, c.section_name, 1, 1, c.confidence⟩ := by
        apply pySortByStart_of_sorted
        apply chainLe_of_const_start
        intro c hc
        rcases List.mem_cons.mp hc with rfl | hc'
        · rfl
        · obtain ⟨c', _, rfl⟩ := List.mem_map.mp hc'
          rfl
      obtain ⟨q, hq⟩ := mergeWalk_uniform t n
        (rest.map fun c => ⟨c.section_type, c.section_name, 1, 1, c.confidence⟩)
        c0.confidence
        (by
          intro c hc
          obtain ⟨c', hc', rfl⟩ := List.mem_map.mp hc
          obtain ⟨hcn, hct, _, _⟩ := hall c' (List.mem_cons_of_mem _ hc')
          exact ⟨hct, hcn, rfl, rfl⟩)
      refine ⟨q, ?_⟩
      simp only [mergeBatchSections, List.foldl_cons, List.foldl_nil, List.nil_append,
        List.append_nil, hsort]
      rw [hq]

/-- Witness for C7 (amended): two same-name candidates covering page 1
collapse to the single section `[1, 1]`. -/
theorem C7_single_page_one_section_amended_witness :
    ∃ q, detectSectionsFromCandidates 1
        (fun _ => [⟨"general", "N", 0, 5, none⟩, ⟨"general", "N", 1, 1, some 1⟩])
      = some [⟨"general", "N", 1, 1, q⟩] :=
  C7_single_page_one_section_amended
    [⟨"general", "N", 0, 5, none⟩, ⟨"general", "N", 1, 1, some 1⟩] "general" "N"
    (by decide) (by decide)

/-- A `mapM` over `Option` fails as soon as one element fails. -/
theorem list_mapM_none {α β : Type} (f : α → Option β) :
    ∀ (l : List α) (a : α), a ∈ l → f a = none → l.mapM f = none := by
  intro l
  induction l with
  | nil => intro a ha; cases ha
  | cons x t ih =>
      intro a ha hfa
      rw [List.mapM_cons]
      rcases List.mem_cons.mp ha with rfl | ha'
      · rw [hfa]; rfl
      · cases hfx : f x with
        | none => rfl
        | some y => rw [ih a ha' hfa]; rfl

/-- A `mapM` over `Option` whose steps all succeed is the `map`. -/
theorem list_mapM_some_map {α β : Type} (f : α → Option β) (g : α → β) :
    ∀ l : List α, (∀ a ∈ l, f a = some (g a)) → l.mapM f = some (l.map g) := by
  intro l
  induction l with
  | nil => intro _; rfl
  | cons x t ih =>
      intro hall
      rw [List.mapM_cons, hall x (List.mem_cons_self x t),
        ih fun a ha => hall a (List.mem_cons_of_mem _ ha)]
      rfl

/-- Concatenating a family of empty lists yields the accumulator. -/
theorem foldl_append_of_all_empty {α : Type} :
    ∀ (l : List (List α)) (acc : List α), (∀ x ∈ l, x = []) →
      l.foldl (· ++ ·) acc = acc := by
  intro l
  induction l with
  | nil => intro acc _; rfl
  | cons x t ih =>
      intro acc hall
      rw [List.foldl_cons, hall x (List.mem_cons_self x t), List.append_nil]
      exact ih acc fun y hy => hall y (List.mem_cons_of_mem _ hy)

/-- If any batch's reply fails to parse, the whole detection returns
`None` (the parse raises; `detect_sections` catches and returns `None`) —
the remaining batches never contribute. -/
theorem detect_none_of_batch_parse_none (totalPages : ℕ) (reply : ℕ → String) (i : ℕ)
    (hi : i < numBatches totalPages) (hp : parse_detection_response (reply i) = none) :
    detect_sections totalPages reply = none := by
  unfold detect_sections
  have hbn : detect_batch_sections (batchStartPage i) (batchEndPage totalPages i) (reply i)
      = none := by
    unfold detect_batch_sections
    rw [hp]
    rfl
  rw [list_mapM_none _ (List.range (numBatches totalPages)) i (List.mem_range.mpr hi) hbn]
  rfl

set_option maxRecDepth 10000 in
/-- C5: the claim says an unparseable batch reply — after stripping fences
and fixing trailing commas — contributes zero candidates while the other
batches continue, and that a fenced array with a trailing comma is
repaired.  False on the detection path: `_parse_detection_response` only
strips fences (no comma repair) and raises, so a 25-page document whose
first batch replies with a fenced trailing-comma array gets `None` for the
whole document even though the second batch's reply is clean. -/
theorem C5_trailing_comma_batch_aborts_detection :
    parse_detection_response fencedTrailingCommaReply = none ∧
    detect_sections 25
        (fun i => if i = 0 then fencedTrailingCommaReply else fencedCleanReply)
      = none := by
  exact ⟨by decide, by decide⟩

set_option maxRecDepth 10000 in
/-- C5 (amended): in detection, the parser strips markdown fences but
performs no trailing-comma repair, and an unparseable batch makes
`detect_sections` fail for the whole document rather than contributing
zero candidates; a fenced but otherwise clean array does parse; the
trailing-comma repair (with fence stripping) exists only in the
extraction-stage cleaner `clean_json_response`, which does make the
trailing-comma reply loadable. -/
theorem C5_detection_parse_behaviour :
    (∀ (totalPages : ℕ) (reply : ℕ → String) (i : ℕ), i < numBatches totalPages →
        parse_detection_response (reply i) = none →
        detect_sections totalPages reply = none) ∧
    parse_detection_response fencedCleanReply = some [fencedCleanElem] ∧
    json_loads (clean_json_response fencedTrailingCommaReply)
      = some (.arr (.cons repairedTrailingCommaElem .nil)) := by
  exact ⟨detect_none_of_batch_parse_none, by decide, by decide⟩

set_option maxRecDepth 10000 in
/-- Witness for C5 (amended) at a concrete input: batch 0 of a 25-page
document replies with non-JSON text and the whole detection returns
`None`. -/
theorem C5_detection_parse_behaviour_witness :
    detect_sections 25 (fun _ => "no json here") = none :=
  C5_detection_parse_behaviour.1 25 (fun _ => "no json here") 0 (by decide) (by decide)

/-- C6: on unrecoverable failure — some batch's reply unparseable, or all
batches parsing to zero candidates — `detect_sections` returns the
explicit failure value `None` (never a fabricated whole-document section:
`_create_default_section` is dead code), and the pipeline stage turns that
into an error, so no document result is produced. -/
theorem C6_total_failure_is_explicit (totalPages : ℕ) (reply : ℕ → String)
    (h : (∃ i, i < numBatches totalPages ∧ parse_detection_response (reply i) = none) ∨
         (∀ i, i < numBatches totalPages →
            detect_batch_sections (batchStartPage i) (batchEndPage totalPages i) (reply i)
              = some [])) :
    detect_sections totalPages reply = none ∧
    pipelineDetectStage totalPages reply = .error "Section detection failed" := by
  have hd : detect_sections totalPages reply = none := by
    rcases h with ⟨i, hi, hp⟩ | hall
    · exact detect_none_of_batch_parse_none totalPages reply i hi hp
    · unfold detect_sections
      rw [list_mapM_some_map _ (fun _ => ([] : List SectionDict)) _
        (fun i hi => hall i (List.mem_range.mp hi))]
      show mergeBatchSections _ = none
      unfold mergeBatchSections
      rw [foldl_append_of_all_empty _ _ (by
        intro x hx
        obtain ⟨_, _, rfl⟩ := List.mem_map.mp hx
        rfl)]
      rfl
  refine ⟨hd, ?_⟩
  unfold pipelineDetectStage
  rw [hd]

set_option maxRecDepth 10000 in
/-- Witness for C6: every batch of a 25-page document replies with the
empty JSON array; detection returns `None` and the pipeline errors out. -/
theorem C6_total_failure_is_explicit_witness :
    detect_sections 25 (fun _ => "[]") = none ∧
    pipelineDetectStage 25 (fun _ => "[]") = .error "Section detection failed" :=
  C6_total_failure_is_explicit 25 (fun _ => "[]")
    (Or.inr (by
      intro i hi
      match i with
      | 0 => decide
      | 1 => decide
      | (n + 2) =>
          rw [show numBatches 25 = 2 from by decide] at hi
          exact absurd hi (by omega)))

/-- `validate_document_structure` never reads `validation_errors`. -/
theorem vds_ignores_errors (a : String) (b : InputMetadata) (c : ℚ) (d : ℕ)
    (e : List SectionJson) (f : String) (err : Option (List String)) :
    validate_document_structure ⟨a, b, c, d, e, f, err⟩
      = validate_document_structure ⟨a, b, c, d, e, f, none⟩ := rfl

/-- The structure check of the returned document equals the structure
check `validate_and_combine` ran internally (attaching the error list does
not change it). -/
theorem vds_of_vac (sections : List SectionJson) (meta : InputMetadata) (docId : String) :
    validate_document_structure (validate_and_combine sections meta docId).document
      = validate_document_structure
          ⟨docId, meta, aggregateConfidence (sections.map sectionConfidence),
            sections.length, sections, "pending", none⟩ := by
  simp only [validate_and_combine]
  split_ifs <;> rfl

/-- C4: `validate_and_combine` saves the document to final output (the
approved disposition) if and only if the built document passes the
structure check, the aggregate confidence — arithmetic mean of the
per-section confidences, 0.0 when empty — is at least
`CONFIDENCE_THRESHOLD` (0.85), and no single section's confidence is below
`LOW_CONFIDENCE_THRESHOLD` (0.70); the returned document carries that
aggregate as its `confidence_score`. -/
theorem C4_approved_iff_thresholds (sections : List SectionJson) (meta : InputMetadata)
    (docId : String) :
    (validate_and_combine sections meta docId).document.confidence_score
        = aggregateConfidence (sections.map sectionConfidence) ∧
    ((validate_and_combine sections meta docId).savedToFinal = true ↔
      ((validate_document_structure (validate_and_combine sections meta docId).document).1
          = true ∧
       CONFIDENCE_THRESHOLD ≤ aggregateConfidence (sections.map sectionConfidence) ∧
       ∀ s ∈ sections, LOW_CONFIDENCE_THRESHOLD ≤ sectionConfidence s)) := by
  simp only [validate_and_combine]
  split_ifs with hv hnr hnr
  all_goals simp_all
  · intro hT
    rcases hv with h1 | h2
    · exact absurd hT (not_le.mpr h1)
    · exact h2
  · intro h
    rw [vds_ignores_errors] at h
    simp_all

/-- Witness for C4: two sections with confidences 1 and 0.9 on a
structurally complete document are saved to final output. -/
theorem C4_approved_iff_thresholds_witness :
    (validate_and_combine [⟨some ⟨some 1⟩⟩, ⟨some ⟨some (9/10)⟩⟩]
        ⟨some 5, some "ts"⟩ "doc").savedToFinal = true :=
  (C4_approved_iff_thresholds [⟨some ⟨some 1⟩⟩, ⟨some ⟨some (9/10)⟩⟩]
      ⟨some 5, some "ts"⟩ "doc").2.mpr
    ⟨by rw [vds_of_vac]; decide,
     by simp [aggregateConfidence, sectionConfidence, CONFIDENCE_THRESHOLD]; norm_num,
     by
      intro s hs
      rcases List.mem_cons.mp hs with rfl | hs'
      · norm_num [sectionConfidence, LOW_CONFIDENCE_THRESHOLD]
      · rcases List.mem_cons.mp hs' with rfl | hs''
        · norm_num [sectionConfidence, LOW_CONFIDENCE_THRESHOLD]
        · cases hs''⟩

/-- The per-section error list depends only on the `_metadata`-presence
pattern of the sections. -/
theorem sectionMetaErrorsFrom_congr :
    ∀ (e e' : List SectionJson) (i : ℕ),
      e.map (fun s => s.metadata.isSome) = e'.map (fun s => s.metadata.isSome) →
      sectionMetaErrorsFrom i e = sectionMetaErrorsFrom i e' := by
  intro e
  induction e with
  | nil =>
      intro e' i hp
      cases e' with
      | nil => rfl
      | cons s' t' => simp at hp
  | cons s t ih =>
      intro e' i hp
      cases e' with
      | nil => simp at hp
      | cons s' t' =>
          simp only [List.map_cons, List.cons.injEq] at hp
          obtain ⟨h1, h2⟩ := hp
          unfold sectionMetaErrorsFrom
          rw [ih t' (i + 1) h2]
          cases hm : s.metadata <;> cases hm' : s'.metadata <;> simp_all

/-- The structure check reads only the metadata dict and the sections'
`_metadata`-presence pattern — never any confidence value. -/
theorem vds_depends_on_presence (a a' : String) (b : InputMetadata) (c c' : ℚ)
    (d d' : ℕ) (f f' : String) (e e' : List SectionJson)
    (err err' : Option (List String))
    (hp : e.map (fun s => s.metadata.isSome) = e'.map (fun s => s.metadata.isSome)) :
    validate_document_structure ⟨a, b, c, d, e, f, err⟩
      = validate_document_structure ⟨a', b, c', d', e', f', err'⟩ := by
  have hlen : e.length = e'.length := by
    have := congrArg List.length hp
    simpa using this
  unfold validate_document_structure
  rw [hlen, sectionMetaErrors, sectionMetaErrors, sectionMetaErrorsFrom_congr e e' 0 hp]

/-- A failed structure check comes with a non-empty error list. -/
theorem vds_snd_ne_nil (d : DocumentJson)
    (h : (validate_document_structure d).1 = false) :
    (validate_document_structure d).2 ≠ [] := by
  unfold validate_document_structure at *
  simpa using h

/-- A structurally invalid document is never saved to final output. -/
theorem vac_not_saved_of_invalid (sections : List SectionJson) (meta : InputMetadata)
    (docId : String)
    (h : (validate_document_structure (validate_and_combine sections meta docId).document).1
      = false) :
    (validate_and_combine sections meta docId).savedToFinal = false := by
  rw [vds_of_vac] at h
  simp only [validate_and_combine]
  split_ifs <;> simp_all

/-- A structurally invalid document carries the checker's error list. -/
theorem vac_errors_of_invalid (sections : List SectionJson) (meta : InputMetadata)
    (docId : String)
    (h : (validate_document_structure (validate_and_combine sections meta docId).document).1
      = false) :
    (validate_and_combine sections meta docId).document.validation_errors
      = some (validate_document_structure
          (validate_and_combine sections meta docId).document).2 := by
  rw [vds_of_vac] at h ⊢
  simp only [validate_and_combine]
  split_ifs <;> simp_all [vds_ignores_errors]

/-- C3: when the structural validity check fails, the document takes the
structural-failure (rejected) path: it is not saved to final output, the
explicit error list is attached to the returned document, that list is
non-empty, and this holds for every replacement of the sections by ones
with the same `_metadata`-presence pattern — i.e. independently of all
confidence values. -/
theorem C3_structural_failure_rejected (sections : List SectionJson) (meta : InputMetadata)
    (docId : String)
    (h : (validate_document_structure (validate_and_combine sections meta docId).document).1
      = false) :
    ∀ sections' : List SectionJson,
      sections'.map (fun s => s.metadata.isSome) = sections.map (fun s => s.metadata.isSome) →
      (validate_and_combine sections' meta docId).savedToFinal = false ∧
      (validate_and_combine sections' meta docId).document.validation_errors
        = some (validate_document_structure
            (validate_and_combine sections' meta docId).document).2 ∧
      (validate_document_structure (validate_and_combine sections' meta docId).document).2
        ≠ [] ∧
      dispositionOf sections' meta docId = .rejected := by
  intro sections' hp
  have hv' : (validate_document_structure
      (validate_and_combine sections' meta docId).document).1 = false := by
    rw [vds_of_vac] at h ⊢
    rw [vds_depends_on_presence docId docId meta
      (aggregateConfidence (sections'.map sectionConfidence))
      (aggregateConfidence (sections.map sectionConfidence))
      sections'.length sections.length "pending" "pending" sections' sections none none hp]
    exact h
  refine ⟨vac_not_saved_of_invalid _ _ _ hv', vac_errors_of_invalid _ _ _ hv',
    vds_snd_ne_nil _ hv', ?_⟩
  simp [dispositionOf, vac_not_saved_of_invalid _ _ _ hv', hv']

/-- Witness for C3: one section without `_metadata` is rejected with a
non-empty error list attached. -/
theorem C3_structural_failure_rejected_witness :
    (validate_and_combine [⟨none⟩] ⟨some 5, some "ts"⟩ "d").savedToFinal = false ∧
    (validate_and_combine [⟨none⟩] ⟨some 5, some "ts"⟩ "d").document.validation_errors
      = some (validate_document_structure
          (validate_and_combine [⟨none⟩] ⟨some 5, some "ts"⟩ "d").document).2 ∧
    (validate_document_structure
        (validate_and_combine [⟨none⟩] ⟨some 5, some "ts"⟩ "d").document).2 ≠ [] ∧
    dispositionOf [⟨none⟩] ⟨some 5, some "ts"⟩ "d" = .rejected :=
  C3_structural_failure_rejected [⟨none⟩] ⟨some 5, some "ts"⟩ "d"
    (by rw [vds_of_vac]; decide) [⟨none⟩] rfl

/-- C10: a section without a `_metadata.confidence` entry — whether
`_metadata` itself is absent or just the `confidence` key — contributes
exactly `0.5` to the confidence list; replacing such a section by one with
an explicit confidence of `0.5` leaves the disposition, the review reason
and the aggregate `confidence_score` unchanged, so the default is `0.5`,
not a worst-case `0.0`, and the section is not skipped. -/
theorem C10_missing_confidence_defaults_half (pre post : List SectionJson)
    (meta : InputMetadata) (docId : String) (m : SectionMeta)
    (hm : m.confidence = none) :
    sectionConfidence ⟨none⟩ = 1/2 ∧
    sectionConfidence ⟨some m⟩ = 1/2 ∧
    ((pre ++ ⟨some m⟩ :: post).map sectionConfidence
      = pre.map sectionConfidence ++ (1/2 : ℚ) :: post.map sectionConfidence) ∧
    (validate_and_combine (pre ++ ⟨some m⟩ :: post) meta docId).savedToFinal
      = (validate_and_combine (pre ++ ⟨some ⟨some (1/2)⟩⟩ :: post) meta docId).savedToFinal ∧
    (validate_and_combine (pre ++ ⟨some m⟩ :: post) meta docId).reviewReason
      = (validate_and_combine (pre ++ ⟨some ⟨some (1/2)⟩⟩ :: post) meta docId).reviewReason ∧
    (validate_and_combine (pre ++ ⟨some m⟩ :: post) meta docId).document.confidence_score
      = (validate_and_combine (pre ++ ⟨some ⟨some (1/2)⟩⟩ :: post)
          meta docId).document.confidence_score := by
  have hc : (pre ++ ⟨some m⟩ :: post).map sectionConfidence
      = (pre ++ ⟨some ⟨some (1/2)⟩⟩ :: post).map sectionConfidence := by
    simp [sectionConfidence, hm]
  have hpres : (pre ++ (⟨some m⟩ : SectionJson) :: post).map (fun s => s.metadata.isSome)
      = (pre ++ (⟨some ⟨some (1/2)⟩⟩ : SectionJson) :: post).map
          (fun s => s.metadata.isSome) := by
    simp
  have hvds2 : validate_document_structure
        ⟨docId, meta,
          aggregateConfidence ((pre ++ ⟨some ⟨some (1/2)⟩⟩ :: post).map sectionConfidence),
          (pre ++ ⟨some m⟩ :: post).length, pre ++ ⟨some m⟩ :: post, "pending", none⟩
      = validate_document_structure
        ⟨docId, meta,
          aggregateConfidence ((pre ++ ⟨some ⟨some (1/2)⟩⟩ :: post).map sectionConfidence),
          (pre ++ ⟨some ⟨some (1/2)⟩⟩ :: post).length,
          pre ++ ⟨some ⟨some (1/2)⟩⟩ :: post, "pending", none⟩ :=
    vds_depends_on_presence _ _ _ _ _ _ _ _ _ _ _ _ _ hpres
  refine ⟨rfl, by simp [sectionConfidence, hm], by simp [sectionConfidence, hm], ?_, ?_, ?_⟩
  all_goals
    simp only [validate_and_combine, hc, hvds2]
  all_goals split_ifs <;> rfl

/-- Witness for C10 at a concrete input: a confidence-less `_metadata`
behaves exactly like an explicit 0.5. -/
theorem C10_missing_confidence_defaults_half_witness :
    sectionConfidence ⟨none⟩ = 1/2 ∧
    sectionConfidence ⟨some ⟨none⟩⟩ = 1/2 ∧
    (([(⟨some ⟨some 1⟩⟩ : SectionJson)] ++ (⟨some ⟨none⟩⟩ : SectionJson) :: []).map
        sectionConfidence
      = [(⟨some ⟨some 1⟩⟩ : SectionJson)].map sectionConfidence
          ++ (1/2 : ℚ) :: ([] : List SectionJson).map sectionConfidence) ∧
    (validate_and_combine ([⟨some ⟨some 1⟩⟩] ++ ⟨some ⟨none⟩⟩ :: [])
        ⟨some 5, some "ts"⟩ "d").savedToFinal
      = (validate_and_combine ([⟨some ⟨some 1⟩⟩] ++ ⟨some ⟨some (1/2)⟩⟩ :: [])
          ⟨some 5, some "ts"⟩ "d").savedToFinal ∧
    (validate_and_combine ([⟨some ⟨some 1⟩⟩] ++ ⟨some ⟨none⟩⟩ :: [])
        ⟨some 5, some "ts"⟩ "d").reviewReason
      = (validate_and_combine ([⟨some ⟨some 1⟩⟩] ++ ⟨some ⟨some (1/2)⟩⟩ :: [])
          ⟨some 5, some "ts"⟩ "d").reviewReason ∧
    (validate_and_combine ([⟨some ⟨some 1⟩⟩] ++ ⟨some ⟨none⟩⟩ :: [])
        ⟨some 5, some "ts"⟩ "d").document.confidence_score
      = (validate_and_combine ([⟨some ⟨some 1⟩⟩] ++ ⟨some ⟨some (1/2)⟩⟩ :: [])
          ⟨some 5, some "ts"⟩ "d").document.confidence_score :=
  C10_missing_confidence_defaults_half [⟨some ⟨some 1⟩⟩] [] ⟨some 5, some "ts"⟩ "d" ⟨none⟩ rfl

theorem fixPair_start (a b : SectionDict) : (fixPair a b).start_page = a.start_page := by
  unfold fixPair
  dsimp only
  split_ifs <;> rfl

theorem fixPair_end (a b : SectionDict) : (fixPair a b).end_page = b.start_page - 1 := by
  unfold fixPair
  dsimp only
  split_ifs <;> first | rfl | omega

theorem fixPair_id (a b : SectionDict) (h : a.end_page = b.start_page - 1) :
    fixPair a b = a := by
  unfold fixPair
  dsimp only
  rw [if_neg (show ¬ a.end_page < b.start_page - 1 by omega)]
  rw [if_neg (show ¬ a.end_page ≥ b.start_page by omega)]

theorem fixGapsOverlaps_starts :
    ∀ l : List SectionDict,
      (fixGapsOverlaps l).map SectionDict.start_page = l.map SectionDict.start_page := by
  intro l
  match l with
  | [] => rfl
  | [a] => rfl
  | a :: b :: t =>
      simp only [fixGapsOverlaps, List.map_cons]
      rw [fixPair_start]
      have := fixGapsOverlaps_starts (b :: t)
      simp only [List.map_cons] at this
      rw [this]

theorem fixGapsOverlaps_getLast? :
    ∀ l : List SectionDict, (fixGapsOverlaps l).getLast? = l.getLast? := by
  intro l
  match l with
  | [] => rfl
  | [a] => rfl
  | a :: b :: t =>
      have ih := fixGapsOverlaps_getLast? (b :: t)
      match t with
      | [] => simp [fixGapsOverlaps, fixPair]
      | c :: t' =>
          simp only [fixGapsOverlaps] at ih ⊢
          rw [List.getLast?_cons_cons, List.getLast?_cons_cons]
          rw [List.getLast?_cons_cons] at ih
          exact ih

theorem fixGapsOverlaps_chain :
    ∀ l : List SectionDict,
      List.Chain' (fun x y => x.end_page = y.start_page - 1) (fixGapsOverlaps l) := by
  intro l
  match l with
  | [] => exact List.chain'_nil
  | [a] => exact List.chain'_singleton a
  | a :: b :: t =>
      have ih := fixGapsOverlaps_chain (b :: t)
      match t with
      | [] =>
          simp only [fixGapsOverlaps]
          refine List.chain'_cons.mpr ⟨?_, ?_⟩
          · exact fixPair_end a b
          · exact List.chain'_singleton b
      | c :: t' =>
          simp only [fixGapsOverlaps] at ih ⊢
          refine List.chain'_cons.mpr ⟨?_, ih⟩
          rw [fixPair_end, fixPair_start]

theorem fixGapsOverlaps_id :
    ∀ l : List SectionDict,
      List.Chain' (fun x y => x.end_page = y.start_page - 1) l → fixGapsOverlaps l = l := by
  intro l
  match l with
  | [] => intro _; rfl
  | [a] => intro _; rfl
  | a :: b :: t =>
      intro h
      simp only [fixGapsOverlaps]
      rw [fixPair_id a b (List.chain'_cons.mp h).1,
        fixGapsOverlaps_id (b :: t) (List.chain'_cons.mp h).2]

theorem fixLastEnd_starts (N : ℤ) :
    ∀ l : List SectionDict,
      (fixLastEnd N l).map SectionDict.start_page = l.map SectionDict.start_page := by
  intro l
  match l with
  | [] => rfl
  | [a] =>
      simp only [fixLastEnd, List.map_cons, List.map_nil]
      split_ifs <;> rfl
  | a :: b :: t =>
      simp only [fixLastEnd, List.map_cons]
      have := fixLastEnd_starts N (b :: t)
      simp only [List.map_cons] at this
      rw [this]

theorem fixLastEnd_getLast (N : ℤ) :
    ∀ l : List SectionDict, l ≠ [] →
      ∃ x, (fixLastEnd N l).getLast? = some x ∧ x.end_page = N := by
  intro l
  match l with
  | [] => intro h; exact absurd rfl h
  | [a] =>
      intro _
      refine ⟨if a.end_page ≠ N then { a with end_page := N } else a, rfl, ?_⟩
      split_ifs with h <;> simp_all
  | a :: b :: t =>
      intro _
      obtain ⟨x, hx, hxe⟩ := fixLastEnd_getLast N (b :: t) (by simp)
      refine ⟨x, ?_, hxe⟩
      simp only [fixLastEnd]
      match ht : fixLastEnd N (b :: t) with
      | [] => rw [ht] at hx; cases hx
      | y :: ys =>
          rw [ht] at hx
          rw [List.getLast?_cons_cons]
          exact hx

theorem fixLastEnd_id (N : ℤ) :
    ∀ l : List SectionDict, (∀ x, l.getLast? = some x → x.end_page = N) →
      fixLastEnd N l = l := by
  intro l
  match l with
  | [] => intro _; rfl
  | [a] =>
      intro h
      have := h a rfl
      simp only [fixLastEnd]
      rw [if_neg (by simp [this])]
  | a :: b :: t =>
      intro h
      simp only [fixLastEnd]
      rw [fixLastEnd_id N (b :: t) (fun x hx => h x (by rw [List.getLast?_cons_cons]; exact hx))]

theorem fixFirstStart_id (l : List SectionDict)
    (h : ∀ x, l.head? = some x → x.start_page = 1) : fixFirstStart l = l := by
  match l with
  | [] => rfl
  | a :: t =>
      simp only [fixFirstStart]
      rw [if_neg (by simp [h a rfl])]

theorem mem_insortByStart (x a : SectionDict) (l : List SectionDict) :
    a ∈ insortByStart x l ↔ a = x ∨ a ∈ l := by
  induction l with
  | nil => simp [insortByStart]
  | cons h t ih =>
      simp only [insortByStart]
      split_ifs with hc
      · simp only [List.mem_cons, ih]
        tauto
      · simp only [List.mem_cons]

theorem mem_pySortByStart (a : SectionDict) (l : List SectionDict) :
    a ∈ pySortByStart l ↔ a ∈ l := by
  induction l with
  | nil => simp [pySortByStart]
  | cons h t ih =>
      simp only [pySortByStart, mem_insortByStart, List.mem_cons, ih]

theorem insortByStart_sorted (x : SectionDict) (l : List SectionDict)
    (h : List.Chain' (fun a b : SectionDict => a.start_page ≤ b.start_page) l) :
    List.Chain' (fun a b : SectionDict => a.start_page ≤ b.start_page) (insortByStart x l) := by
  induction l with
  | nil => exact List.chain'_singleton x
  | cons a t ih =>
      simp only [insortByStart]
      split_ifs with hc
      · have htail := ih (List.Chain'.tail h)
        cases ht : insortByStart x t with
        | nil => exact List.chain'_singleton a
        | cons y ys =>
            refine List.chain'_cons.mpr ⟨?_, ht ▸ htail⟩
            have hy : y ∈ insortByStart x t := by rw [ht]; exact List.mem_cons_self y ys
            rcases (mem_insortByStart x y t).mp hy with rfl | hyt
            · exact le_of_lt hc
            · exact chainLe_head_all a t h y hyt
      · exact List.chain'_cons.mpr ⟨not_lt.mp hc, h⟩

theorem pySortByStart_sorted (l : List SectionDict) :
    List.Chain' (fun a b : SectionDict => a.start_page ≤ b.start_page) (pySortByStart l) := by
  induction l with
  | nil => exact List.chain'_nil
  | cons a t ih => exact insortByStart_sorted a (pySortByStart t) ih

theorem pairwiseAdj_decide_iff (P : SectionDict → SectionDict → Prop)
    [inst : ∀ a b, Decidable (P a b)] :
    ∀ l : List SectionDict,
      pairwiseAdj (fun a b => decide (P a b)) l = true ↔ List.Chain' P l := by
  intro l
  match l with
  | [] => simp [pairwiseAdj]
  | [a] => simp [pairwiseAdj]
  | a :: b :: t =>
      simp only [pairwiseAdj, Bool.and_eq_true, decide_eq_true_eq, List.chain'_cons,
        pairwiseAdj_decide_iff P (b :: t)]

theorem validateSections_fixpoint (r : List SectionDict) (N : ℤ)
    (hne : r ≠ [])
    (hsort : List.Chain' (fun a b : SectionDict => a.start_page ≤ b.start_page) r)
    (hhead : ∀ x, r.head? = some x → x.start_page = 1)
    (hlast : ∀ x, r.getLast? = some x → x.end_page = N)
    (hadj : List.Chain' (fun x y : SectionDict => x.end_page = y.start_page - 1) r) :
    validateSections r N = some r := by
  unfold validateSections
  rw [if_neg (by simpa using hne)]
  rw [pySortByStart_of_sorted r hsort, fixFirstStart_id r hhead, fixLastEnd_id N r hlast,
    fixGapsOverlaps_id r hadj]

/-- C8 (amended): the gap/overlap reconciliation routine
`_validate_sections` is idempotent on every non-empty list whose
`start_page`s are all at least 1 (applying it twice returns the
first application's result unchanged), and it is a no-op on any list
already satisfying the Section invariants.  The restriction to positive
start pages is forced by the counterexample: a `start_page ≤ 0` lets the
first-section fix break sortedness, and re-sorting then changes the
result. -/
theorem C8_repair_idempotent_amended :
    (∀ (l : List SectionDict) (N : ℤ), l ≠ [] → (∀ s ∈ l, 1 ≤ s.start_page) →
      ∃ r, validateSections l N = some r ∧ validateSections r N = some r) ∧
    (∀ (l : List SectionDict) (N : ℤ), sectionInvariants N l = true →
      validateSections l N = some l) := by
  constructor
  · intro l N hne hpos
    refine ⟨fixGapsOverlaps (fixLastEnd N (fixFirstStart (pySortByStart l))), ?_, ?_⟩
    · unfold validateSections
      rw [if_neg (by simpa using hne)]
    · set s := pySortByStart l with hs
      set r := fixGapsOverlaps (fixLastEnd N (fixFirstStart s)) with hrdef
      -- shape of the sorted list
      have hsne : s ≠ [] := by
        obtain ⟨a, ha⟩ := List.exists_mem_of_ne_nil l hne
        have : a ∈ s := by rw [hs]; exact (mem_pySortByStart a l).mpr ha
        exact List.ne_nil_of_mem this
      obtain ⟨sh, st, hshape⟩ : ∃ sh st, s = sh :: st := by
        cases hcs : s with
        | nil => exact absurd hcs hsne
        | cons x xs => exact ⟨x, xs, rfl⟩
      -- starts of r
      have hff : fixFirstStart s
          = (if sh.start_page ≠ 1 then { sh with start_page := 1 } else sh) :: st := by
        rw [hshape]; rfl
      have hffstart :
          (if sh.start_page ≠ 1 then { sh with start_page := 1 } else sh).start_page = 1 := by
        split_ifs with hx
        · rfl
        · omega
      have hstarts : r.map SectionDict.start_page = 1 :: st.map SectionDict.start_page := by
        rw [hrdef, fixGapsOverlaps_starts, fixLastEnd_starts, hff]
        simp only [List.map_cons]
        rw [hffstart]
      obtain ⟨rh, rt, hrshape⟩ : ∃ rh rt, r = rh :: rt := by
        cases hcr : r with
        | nil => rw [hcr] at hstarts; cases hstarts
        | cons x xs => exact ⟨x, xs, rfl⟩
      have hrhead1 : rh.start_page = 1 := by
        rw [hrshape] at hstarts
        simpa using congrArg List.head? hstarts
      have hrtst : rt.map SectionDict.start_page = st.map SectionDict.start_page := by
        rw [hrshape] at hstarts
        simpa using congrArg List.tail hstarts
      -- sortedness of r
      have hssorted := pySortByStart_sorted l
      rw [← hs, hshape] at hssorted
      have hstsorted :
          List.Chain' (LE.le) (st.map SectionDict.start_page) := by
        rw [List.chain'_map]
        exact List.Chain'.tail hssorted
      have hrsorted :
          List.Chain' (fun a b : SectionDict => a.start_page ≤ b.start_page) r := by
        rw [← List.chain'_map (f := SectionDict.start_page)]
        rw [hstarts]
        cases hst : st.map SectionDict.start_page with
        | nil => exact List.chain'_singleton 1
        | cons y ys =>
            refine List.chain'_cons.mpr ⟨?_, hst ▸ hstsorted⟩
            -- y is the start page of some element of st ⊆ s ⊆ l
            have : ∃ c ∈ st, c.start_page = y := by
              cases st with
              | nil => cases hst
              | cons c cs =>
                  simp only [List.map_cons, List.cons.injEq] at hst
                  exact ⟨c, List.mem_cons_self c cs, hst.1⟩
            obtain ⟨c, hcst, rfl⟩ := this
            have : c ∈ l := (mem_pySortByStart c l).mp
              (by rw [← hs, hshape]; exact List.mem_cons_of_mem _ hcst)
            exact hpos c this
      -- head of r
      have hrheadfact : ∀ x, r.head? = some x → x.start_page = 1 := by
        intro x hx
        rw [hrshape] at hx
        cases hx
        exact hrhead1
      -- last of r
      have hrlast : ∀ x, r.getLast? = some x → x.end_page = N := by
        intro x hx
        rw [hrdef, fixGapsOverlaps_getLast?] at hx
        obtain ⟨z, hz, hze⟩ := fixLastEnd_getLast N (fixFirstStart s)
          (by rw [hff]; simp)
        rw [hz] at hx
        cases hx
        exact hze
      -- adjacency of r
      have hradj := fixGapsOverlaps_chain (fixLastEnd N (fixFirstStart s))
      rw [← hrdef] at hradj
      exact validateSections_fixpoint r N (by rw [hrshape]; simp) hrsorted hrheadfact
        hrlast hradj
  · intro l N h
    cases l with
    | nil => exact absurd h (by simp [sectionInvariants])
    | cons hd tl =>
        simp only [sectionInvariants, Bool.and_eq_true, decide_eq_true_eq,
          pairwiseAdj_decide_iff] at h
        obtain ⟨⟨⟨hsortB, hheadB⟩, hlastB⟩, hadjB⟩ := h
        apply validateSections_fixpoint (hd :: tl) N (by simp) hsortB
        · intro x hx
          cases hx
          exact hheadB
        · intro x hx
          rw [hx] at hlastB
          simpa using hlastB
        · exact hadjB

/-- C8: the claim says the reconciliation routine is idempotent on every
non-empty section list.  False: with two candidates both starting at page
0, the first pass sets the (stably) first section's start to 1, which
breaks sortedness, so the second pass re-sorts and produces a different
list. -/
theorem C8_repair_not_idempotent_counterexample :
    ((validateSections [⟨"a", "A", 0, 5, none⟩, ⟨"b", "B", 0, 7, none⟩] 7).bind
        fun r => validateSections r 7)
      ≠ validateSections [⟨"a", "A", 0, 5, none⟩, ⟨"b", "B", 0, 7, none⟩] 7 := by decide

/-- Witness for C8 (amended): a two-section list with positive start
pages reaches a fixpoint after one pass. -/
theorem C8_repair_idempotent_amended_witness :
    ∃ r, validateSections [⟨"g", "S", 2, 2, none⟩, ⟨"g", "T", 5, 9, none⟩] 9 = some r ∧
      validateSections r 9 = some r :=
  C8_repair_idempotent_amended.1 [⟨"g", "S", 2, 2, none⟩, ⟨"g", "T", 5, 9, none⟩] 9
    (by decide) (by decide)

theorem emptierObj_length : ∀ {a b : JObj}, EmptierObj a b → a.length = b.length
  | _, _, .nil => rfl
  | _, _, .cons _ _ ho => by
      simp only [JObj.length]
      rw [emptierObj_length ho]

theorem emptierArr_length : ∀ {a b : JArr}, EmptierArr a b → a.length = b.length
  | _, _, .nil => rfl
  | _, _, .cons _ ha => by
      simp only [JArr.length]
      rw [emptierArr_length ha]

mutual
theorem fieldEmpty_mono : ∀ {v w : JVal}, EmptierVal v w →
    fieldEmpty w = true → fieldEmpty v = true
  | _, _, .eq _, h => h
  | _, _, .toNull _ _, _ => rfl
  | _, _, .emptyStr s t hs, _ => by
      simp only [fieldEmpty, Bool.or_eq_true, beq_iff_eq]
      exact Or.inr (by simpa using hs)
  | _, _, .arr ha, h => by
      cases ha with
      | nil => rfl
      | cons _ _ => simp [fieldEmpty] at h
  | _, _, .obj ho, h => by
      simp only [fieldEmpty] at h ⊢
      rw [emptierObj_length ho]
      split_ifs with h0
      · rfl
      · rw [if_neg h0] at h
        simp only [decide_eq_true_eq] at h ⊢
        have := emptyCount_mono ho
        omega

theorem emptyCount_mono : ∀ {a b : JObj}, EmptierObj a b → emptyCount b ≤ emptyCount a
  | _, _, @EmptierObj.cons k v w a b hv ho => by
      simp only [emptyCount]
      have h1 := emptyCount_mono ho
      by_cases hw : fieldEmpty w = true
      · rw [if_pos hw, if_pos (fieldEmpty_mono hv hw)]
        omega
      · rw [if_neg hw]
        split_ifs <;> omega
  | _, _, .nil => le_refl _
end

theorem check_dict_empty_mono {a b : JObj} (h : EmptierObj a b)
    (hb : check_dict_empty b = true) : check_dict_empty a = true := by
  unfold check_dict_empty at *
  rw [emptierObj_length h]
  split_ifs with h0
  · rfl
  · rw [if_neg h0] at hb
    simp only [decide_eq_true_eq] at hb ⊢
    have := emptyCount_mono h
    omega

theorem emptyDictItemFlag_mono {v w : JVal} (hv : EmptierVal v w) :
    emptyDictItemFlag w ≤ emptyDictItemFlag v := by
  cases hv with
  | eq => exact le_refl _
  | toNull w hw =>
      cases w <;> simp [JVal.isLeaf] at hw <;> simp [emptyDictItemFlag]
  | emptyStr s t hs => exact le_refl _
  | arr ha => exact le_refl _
  | @obj oa ob ho =>
      simp only [emptyDictItemFlag]
      by_cases hcw : check_dict_empty ob = true
      · rw [if_pos hcw, if_pos (check_dict_empty_mono ho hcw)]
      · rw [if_neg hcw]
        exact Nat.zero_le _

theorem countEmptyDictItems_mono : ∀ {a b : JArr}, EmptierArr a b →
    countEmptyDictItems b ≤ countEmptyDictItems a
  | _, _, .nil => le_refl _
  | _, _, .cons hv ha => by
      simp only [countEmptyDictItems]
      exact Nat.add_le_add (emptyDictItemFlag_mono hv) (countEmptyDictItems_mono ha)

theorem clampConfidence_le_one (q : ℚ) : clampConfidence q ≤ 1 :=
  max_le (by norm_num) (min_le_left 1 q)

theorem clampConfidence_mono {q q' : ℚ} (h : q ≤ q') :
    clampConfidence q ≤ clampConfidence q' :=
  max_le_max (le_refl 0) (min_le_min (le_refl 1) h)

theorem confidence_nonneg (w : JVal) (ty : String) :
    0 ≤ (calculate_confidence_score w ty).1 := by
  cases w with
  | null => norm_num [calculate_confidence_score]
  | bool b => exact le_max_left 0 _
  | num q => exact le_max_left 0 _
  | str s => exact le_max_left 0 _
  | arr a =>
      simp only [calculate_confidence_score]
      split_ifs <;> exact le_max_left 0 _
  | obj o =>
      simp only [calculate_confidence_score]
      split_ifs <;> exact le_max_left 0 _

theorem conf_arr_cons (v0 : JVal) (a' : JArr) (ty : String) :
    (calculate_confidence_score (.arr (.cons v0 a')) ty).1
      = if countEmptyDictItems (JArr.cons v0 a') > 0
        then clampConfidence (1 - ((countEmptyDictItems (JArr.cons v0 a') : ℚ))
              / (((JArr.cons v0 a').length : ℚ)) * (2/10))
        else clampConfidence 1 := by
  simp only [calculate_confidence_score]
  rw [if_neg (by simp [JArr.length])]
  split_ifs <;> rfl

theorem conf_obj_cons (k : String) (v0 : JVal) (a' : JObj) (ty : String) :
    (calculate_confidence_score (.obj (.cons k v0 a')) ty).1
      = if check_dict_empty (JObj.cons k v0 a') = true
        then clampConfidence (1 - 2/10) else clampConfidence 1 := by
  simp only [calculate_confidence_score]
  rw [if_neg (by simp [JObj.length])]
  split_ifs <;> rfl

theorem clampConfidence_one : clampConfidence 1 = 1 := by norm_num [clampConfidence]

/-- C9: for a fixed section type, `calculate_confidence_score` is
monotone in structural emptiness — whenever `v` is `w` with some leaf
fields additionally emptied (same shape, leaves replaced by `None` or
blank strings, containers compared pointwise), the emptier record's score
is at most the fuller record's. -/
theorem C9_confidence_monotone (v w : JVal) (ty : String) (h : EmptierVal v w) :
    (calculate_confidence_score v ty).1 ≤ (calculate_confidence_score w ty).1 := by
  cases h with
  | eq => exact le_refl _
  | toNull w hw => exact confidence_nonneg w ty
  | emptyStr s t hs => exact le_refl _
  | @arr a b ha =>
      cases ha with
      | nil => exact le_refl _
      | @cons v0 w0 a' b' hv0 ha0 =>
          have hlen : (JArr.cons v0 a').length = (JArr.cons w0 b').length :=
            emptierArr_length (.cons hv0 ha0)
          have hcnt : countEmptyDictItems (JArr.cons w0 b')
              ≤ countEmptyDictItems (JArr.cons v0 a') :=
            countEmptyDictItems_mono (.cons hv0 ha0)
          rw [conf_arr_cons, conf_arr_cons]
          have hn : (0 : ℚ) < ((JArr.cons w0 b').length : ℚ) := by
            have : 0 < (JArr.cons w0 b').length := by simp [JArr.length]
            exact_mod_cast this
          split_ifs with hev hew hew
          · rw [hlen]
            apply clampConfidence_mono
            have hq : ((countEmptyDictItems (JArr.cons w0 b') : ℚ))
                ≤ (countEmptyDictItems (JArr.cons v0 a') : ℚ) := by exact_mod_cast hcnt
            gcongr
          · -- e_v > 0 but e_w = 0: v side is clamp of (1 - nonneg) ≤ clamp 1
            apply clampConfidence_mono
            have : (0:ℚ) ≤ ((countEmptyDictItems (JArr.cons v0 a') : ℚ))
                / (((JArr.cons v0 a').length : ℚ)) * (2/10) := by positivity
            linarith
          · exact absurd (lt_of_lt_of_le hew hcnt) hev
          · exact le_refl _
  | @obj oa ob ho =>
      cases ho with
      | nil => exact le_refl _
      | @cons k v0 w0 a' b' hv0 ho0 =>
          have hce := check_dict_empty_mono (.cons k hv0 ho0)
          rw [conf_obj_cons, conf_obj_cons]
          split_ifs with hav hbv hbv
          · exact le_refl _
          · apply clampConfidence_mono
            norm_num
          · exact absurd (hce hbv) hav
          · exact le_refl _

/-- Witness for C9: emptying the single string field of an object drops
the score from 1.0 to 0.8. -/
theorem C9_confidence_monotone_witness :
    (calculate_confidence_score (.obj (.cons "a" (.str "") .nil)) "safety").1
      ≤ (calculate_confidence_score (.obj (.cons "a" (.str "x") .nil)) "safety").1 :=
  C9_confidence_monotone _ _ "safety"
    (.obj (.cons "a" (.emptyStr "" "x" rfl) EmptierObj.nil))
